import Mathlib

/-!
Verification development for the prometheus-truenas-net-exporter network
collector (package `collector`).  Go strings are modelled as lists of
characters (`Str`); the inputs of the collector (procfs/sysfs file contents,
Docker API results, subprocess output) are modelled as explicit values, and
each Go function of the source is translated into a Lean function of the
same name.  Inputs are ASCII text, so byte indices and rune indices agree
and Go's Unicode-aware helpers coincide with their ASCII restrictions used
here.
-/

namespace NetExporter

/-- Go strings, modelled as lists of characters (ASCII inputs). -/
abbrev Str := List Char

/-- ASCII whitespace as recognised by Go's unicode.IsSpace (ASCII part). -/
def goIsSpace (c : Char) : Bool :=
  c = ' ' || c = '\t' || c = '\n' || c = '\x0b' || c = '\x0c' || c = '\r'

/-- strings.TrimSpace (ASCII inputs): trim whitespace on both ends. -/
def goTrimSpace (s : Str) : Str :=
  ((s.dropWhile goIsSpace).reverse.dropWhile goIsSpace).reverse

/-- strings.HasPrefix. -/
def goHasPrefix (s pre : Str) : Bool :=
  match s, pre with
  | _, [] => true
  | [], _ :: _ => false
  | c :: s', p :: ps => c == p && goHasPrefix s' ps

/-- strings.TrimPrefix. -/
def goTrimPrefix (s pre : Str) : Str :=
  if goHasPrefix s pre then s.drop pre.length else s

/-- strings.ToLower (ASCII inputs). -/
def goToLower (s : Str) : Str := s.map Char.toLower

/-- strings.Fields: split around runs of whitespace characters. -/
def goFields (s : Str) : List Str :=
  (s.splitOnP goIsSpace).filter (fun f => !f.isEmpty)

/-- strings.Index(s, sub) for a one-character sub: first index of c in s. -/
def goIndexChar (s : Str) (c : Char) : Option Nat :=
  match s with
  | [] => none
  | x :: s' => if x = c then some 0 else (goIndexChar s' c).map (· + 1)

/-- strings.Index(s, sub): index of the first occurrence of sub in s. -/
def goIndexSub (sub : Str) : Str → Option Nat
  | [] => if sub.isEmpty then some 0 else none
  | c :: rest =>
    if goHasPrefix (c :: rest) sub then some 0
    else (goIndexSub sub rest).map (· + 1)

/-- strings.LastIndex(s, sub) for sub a single dash: last index of a dash. -/
def lastDashIdx : Str → Option Nat
  | [] => none
  | c :: rest =>
    match lastDashIdx rest with
    | some i => some (i + 1)
    | none => if c = '-' then some 0 else none

/-- strings.Split(data, sep) for a one-character separator: all segments,
empty segments kept (result is always nonempty). -/
def splitLines (sep : Char) : Str → List Str
  | [] => [[]]
  | c :: rest =>
    if c = sep then [] :: splitLines sep rest
    else
      match splitLines sep rest with
      | l :: ls => (c :: l) :: ls
      | [] => [[c]]

/-- strings.SplitN(line, colon, 2): text before and after the first colon,
or none when the line has no colon. -/
def splitFirstColon : Str → Option (Str × Str)
  | [] => none
  | c :: rest =>
    if c = ':' then some ([], rest)
    else (splitFirstColon rest).map (fun p => (c :: p.1, p.2))

/-- strconv.ParseUint(s, 10, 64): a nonempty all-digit string whose value
fits in 64 bits; anything else is a parse error. -/
def parseUint64 (s : Str) : Option Nat :=
  if s.isEmpty then none
  else if s.all Char.isDigit then
    let v := s.foldl (fun a c => a * 10 + (c.toNat - '0'.toNat)) 0
    if v < 2 ^ 64 then some v else none
  else none

/-! ### Association-list model of Go maps

Go map reads with the comma-ok form are `lookupM`; plain indexing of a
string-valued map (zero value on a missing key) is `lookupD`; map
assignment is `upsert` (replace the value of an existing key, otherwise
append). -/

/-- Go map read m[k] with the comma-ok form. -/
def lookupM (m : List (Str × α)) (k : Str) : Option α :=
  (m.find? (fun e => e.1 = k)).map (·.2)

/-- Go map read m[k] of a string-valued map: empty string on a missing key. -/
def lookupD (m : List (Str × Str)) (k : Str) : Str :=
  (lookupM m k).getD []

/-- Go map assignment m[k] = v. -/
def upsert (m : List (Str × α)) (k : Str) (v : α) : List (Str × α) :=
  if (m.find? (fun e => e.1 = k)).isSome then
    m.map (fun e => if e.1 = k then (e.1, v) else e)
  else m ++ [(k, v)]

/-! ### Counter reader: readProcNetDev / parseProcNetDevLine -/

/-- interfaceStats: the eight counters kept from a /proc/net/dev line. -/
structure interfaceStats where
  RxBytes : Nat
  RxPackets : Nat
  RxErrors : Nat
  RxDropped : Nat
  TxBytes : Nat
  TxPackets : Nat
  TxErrors : Nat
  TxDropped : Nat
deriving DecidableEq, Repr

/-- The field-parsing loop of parseProcNetDevLine: parse every field as an
unsigned 64-bit decimal, failing the line at the first bad field. -/
def parseFields : List Str → Option (List Nat)
  | [] => some []
  | f :: fs =>
    match parseUint64 f, parseFields fs with
    | some v, some vs => some (v :: vs)
    | _, _ => none

/-- parseProcNetDevLine: split at the first colon, trim the interface name,
require at least 16 whitespace-separated numeric fields, and keep columns
0-3 (rx) and 8-11 (tx). -/
def parseProcNetDevLine (line : Str) : Option (Str × interfaceStats) :=
  match splitFirstColon line with
  | none => none
  | some (pre, post) =>
    let iface := goTrimSpace pre
    let fields := goFields post
    if fields.length < 16 then none
    else
      match parseFields (fields.take 16) with
      | none => none
      | some vals =>
        some (iface,
          { RxBytes := vals.getD 0 0
            RxPackets := vals.getD 1 0
            RxErrors := vals.getD 2 0
            RxDropped := vals.getD 3 0
            TxBytes := vals.getD 8 0
            TxPackets := vals.getD 9 0
            TxErrors := vals.getD 10 0
            TxDropped := vals.getD 11 0 })

/-- The body of readProcNetDev's scan loop: skip the two header lines, parse
each remaining line, skip lines that fail to parse, and store each parsed
line's counters under its interface name (overwriting earlier entries). -/
def procNetDevFold (lines : List Str) : List (Str × interfaceStats) :=
  (lines.drop 2).foldl
    (fun acc line =>
      match parseProcNetDevLine line with
      | some e => upsert acc e.1 e.2
      | none => acc) []

/-- readProcNetDev: the counter file is either unopenable (none) — the only
error case — or a list of lines, which the scan loop folds into a snapshot. -/
def readProcNetDev (file : Option (List Str)) :
    Except Unit (List (Str × interfaceStats)) :=
  match file with
  | none => Except.error ()
  | some lines => Except.ok (procNetDevFold lines)

/-! ### Docker client data (docker.go) -/

/-- ContainerNetwork: per-network endpoint information for a container. -/
structure ContainerNetwork where
  NetworkID : Str
  MacAddress : Str
  IPAddress : Str
deriving DecidableEq, Repr

/-- ContainerInfo: the subset of Docker inspect data the collector keeps. -/
structure ContainerInfo where
  ID : Str
  Name : Str
  PID : Int
  Networks : List (Str × ContainerNetwork)
  Labels : List (Str × Str)
deriving DecidableEq, Repr

/-- DockerNetworkInfo: a Docker network's display name and host bridge
interface name, as consumed by the resolver (declared in the networks
client of this repository; the two fields are the ones network.go reads). -/
structure DockerNetworkInfo where
  Name : Str
  BridgeName : Str
deriving DecidableEq, Repr

/-- The Docker Compose v2 project label key. -/
def composeProjectLabel : Str := "com.docker.compose.project".toList

/-- The TrueNAS bundled-application name prefix. -/
def ixPrefix : Str := "ix-".toList

/-- isNumeric: nonempty and all characters are decimal digits. -/
def isNumeric (s : Str) : Bool :=
  s.all (fun c => '0' ≤ c && c ≤ '9') && decide (s.length > 0)

/-- AppName: prefer the compose project label with the ix- prefix stripped;
otherwise the container name with the ix- prefix stripped and a trailing
numeric instance suffix (a dash not in first position followed by digits)
removed. -/
def AppName (c : ContainerInfo) : Str :=
  match lookupM c.Labels composeProjectLabel with
  | some project => goTrimPrefix project ixPrefix
  | none =>
    let name := goTrimPrefix c.Name ixPrefix
    match lastDashIdx name with
    | some idx =>
      if idx > 0 then
        if isNumeric (name.drop (idx + 1)) then name.take idx else name
      else name
    | none => name

/-- appNameFromDockerNetwork: TrueNAS apps create networks named
ix-(appname)_(suffix); strip the prefix and truncate at the first
underscore when it is not the first character. -/
def appNameFromDockerNetwork (networkName : Str) : Str :=
  if !goHasPrefix networkName ixPrefix then []
  else
    let name := goTrimPrefix networkName ixPrefix
    match goIndexChar name '_' with
    | some idx => if idx > 0 then name.take idx else name
    | none => name

/-! ### LXC/Incus cgroup scanner -/

/-- The cgroup token marking an LXC/Incus container payload. -/
def lxcToken : Str := "lxc.payload.".toList

/-- The per-process scope suffix identifying a container's init process. -/
def initScope : Str := "/init.scope".toList

/-- One iteration of parseLXCCgroup's loop on a single cgroup line: find the
first occurrence of the lxc.payload. token, take the text after it, find the
first slash in that text; the name before the slash is extracted only when
it is nonempty and the text from the slash onward is exactly /init.scope. -/
def parseLXCLine (line : Str) : Option Str :=
  match goIndexSub lxcToken line with
  | none => none
  | some idx =>
    let rest := line.drop (idx + lxcToken.length)
    match goIndexChar rest '/' with
    | none => none
    | some slashIdx =>
      if slashIdx = 0 then none
      else if rest.drop slashIdx = initScope then some (rest.take slashIdx)
      else none

/-- parseLXCCgroup: the first line of the cgroup text yielding a name, or
the empty string. -/
def parseLXCCgroup (data : Str) : Str :=
  ((splitLines '\n' data).findSome? parseLXCLine).getD []

/-- One scanned /proc entry: its numeric pid, the content of its cgroup
file (empty when unreadable), and the host-side ifindex values of its
network namespace's interfaces (findContainerIflinks). -/
structure ProcEntry where
  pid : Int
  cgroup : Str
  iflinks : List Int
deriving DecidableEq, Repr

/-- The body of buildIncusMapping's loop for one /proc entry. -/
def incusStep (ifindexMap : Int → Option Str)
    (result : List (Str × Str)) (p : ProcEntry) : List (Str × Str) :=
  if p.pid ≤ 1 then result
  else if p.cgroup.isEmpty then result
  else
    let containerName := parseLXCCgroup p.cgroup
    if containerName.isEmpty then result
    else if result.any (fun e => decide (e.2 = containerName)) then result
    else
      p.iflinks.foldl
        (fun r idx =>
          match ifindexMap idx with
          | some hostIface => upsert r hostIface containerName
          | none => r) result

/-- buildIncusMapping: scan the /proc entries in directory order and map
host-side veth interfaces to LXC/Incus container names. -/
def buildIncusMapping (ifindexMap : Int → Option Str)
    (procs : List ProcEntry) : List (Str × Str) :=
  procs.foldl (incusStep ifindexMap) []

/-! ### Topology resolver: buildInterfaceInfo -/

/-- vlanInfo: one 802.1Q VLAN sub-interface. -/
structure vlanInfo where
  ID : Str
  Parent : Str
deriving DecidableEq, Repr

/-- interfaceInfo: resolved metadata for one network interface. -/
structure interfaceInfo where
  Name : Str
  Instance : Str
  InstanceType : Str
  App : Str
  Bridge : Str
  VLAN : Str
  State : Str
deriving DecidableEq, Repr

/-- normalizeState: lower-case and trim the sysfs operstate; up, down and
unknown pass through, the empty string becomes unknown, and anything else
is returned unchanged. -/
def normalizeState (s : Str) : Str :=
  let t := goTrimSpace (goToLower s)
  if t = "up".toList ∨ t = "down".toList ∨ t = "unknown".toList then t
  else if t.isEmpty then "unknown".toList
  else t

/-- The correlation data buildInterfaceInfo gathers before its
classification loop, modelled as explicit inputs: operstate file contents
per interface (after readFileString: trimmed, empty on error), the bridge
membership map (master symlinks), presence of a device/driver symlink,
the Docker veth-to-container and bridge-to-network maps, the Incus
veth-to-name map, the VM vnet-to-name map, and the VLAN config map. -/
structure ResolveEnv where
  operstate : Str → Str
  bridgeMap : List (Str × Str)
  hasDriver : Str → Bool
  vethToContainer : List (Str × ContainerInfo)
  bridgeToNetwork : List (Str × DockerNetworkInfo)
  vethToIncus : List (Str × Str)
  vnetToVM : List (Str × Str)
  vlanMap : List (Str × vlanInfo)

/-- The bridge-to-VLAN-id map built at the top of buildInterfaceInfo: for
each VLAN sub-interface that is a bridge member, record its VLAN id against
that bridge (iteration in map order, modelled as list order; a later entry
overwrites an earlier one). -/
def buildBridgeVLAN (env : ResolveEnv) : List (Str × Str) :=
  env.vlanMap.foldl
    (fun acc e =>
      match lookupM env.bridgeMap e.1 with
      | some br => upsert acc br e.2.ID
      | none => acc) []

/-- The classification switch of buildInterfaceInfo for one interface. -/
def classifyInterface (env : ResolveEnv) (bridgeVLAN : List (Str × Str))
    (iface : Str) : interfaceInfo :=
  let base : interfaceInfo :=
    { Name := iface
      State := normalizeState (env.operstate iface)
      Bridge := lookupD env.bridgeMap iface
      Instance := [], InstanceType := [], App := [], VLAN := [] }
  if iface = "lo".toList then
    { base with InstanceType := "loopback".toList
                Instance := "loopback".toList
                App := "system".toList }
  else if goHasPrefix iface "veth".toList then
    let info :=
      match lookupM env.vethToContainer iface with
      | some ci =>
        { base with InstanceType := "docker".toList
                    Instance := ci.Name
                    App := AppName ci }
      | none =>
        match lookupM env.vethToIncus iface with
        | some incusName =>
          { base with InstanceType := "incus".toList
                      Instance := incusName
                      App := incusName }
        | none =>
          let app :=
            match lookupM env.bridgeMap iface with
            | some br =>
              match lookupM env.bridgeToNetwork br with
              | some netInfo => appNameFromDockerNetwork netInfo.Name
              | none => []
            | none => []
          { base with InstanceType := "docker".toList
                      Instance := iface
                      App := app }
    if lookupD env.bridgeMap iface ≠ [] then
      { info with VLAN := lookupD bridgeVLAN (lookupD env.bridgeMap iface) }
    else info
  else if goHasPrefix iface "vnet".toList then
    let info :=
      match lookupM env.vnetToVM iface with
      | some vmName =>
        { base with InstanceType := "vm".toList
                    Instance := vmName
                    App := vmName }
      | none => { base with InstanceType := "vm".toList, Instance := iface }
    if lookupD env.bridgeMap iface ≠ [] then
      { info with VLAN := lookupD bridgeVLAN (lookupD env.bridgeMap iface) }
    else info
  else if goHasPrefix iface "macvtap".toList || goHasPrefix iface "macvlan".toList then
    match lookupM env.vnetToVM iface with
    | some vmName =>
      { base with InstanceType := "macvtap".toList
                  Instance := vmName
                  App := vmName }
    | none => { base with InstanceType := "macvtap".toList, Instance := iface }
  else if goHasPrefix iface "vlan".toList then
    let info :=
      { base with InstanceType := "vlan".toList
                  Instance := iface
                  App := "system".toList }
    match lookupM env.vlanMap iface with
    | some vi => { info with VLAN := vi.ID }
    | none => info
  else if goHasPrefix iface "br-".toList || goHasPrefix iface "br".toList ||
      goHasPrefix iface "docker".toList || goHasPrefix iface "incus".toList then
    let info :=
      { base with InstanceType := "bridge".toList
                  VLAN := lookupD bridgeVLAN iface }
    if goHasPrefix iface "br-".toList then
      match lookupM env.bridgeToNetwork iface with
      | some netInfo =>
        { info with Instance := netInfo.Name
                    App := appNameFromDockerNetwork netInfo.Name }
      | none => { info with Instance := iface }
    else { info with Instance := iface, App := "system".toList }
  else
    let t := if env.hasDriver iface then "physical".toList else "unknown".toList
    let info :=
      { base with InstanceType := t
                  Instance := iface
                  App := "system".toList }
    match lookupM env.vlanMap iface with
    | some vi => { info with InstanceType := "vlan".toList, VLAN := vi.ID }
    | none => info

/-- buildInterfaceInfo: build the bridge-to-VLAN map, then classify every
interface of the snapshot (the snapshot's key set, in map order), keyed by
interface name. -/
def buildInterfaceInfo (env : ResolveEnv) (ifaces : List Str) :
    List (Str × interfaceInfo) :=
  ifaces.foldl
    (fun result iface =>
      upsert result iface (classifyInterface env (buildBridgeVLAN env) iface)) []

/-! ### Lemmas about the association-list map model -/

theorem lookupM_upsert (m : List (Str × α)) (k k' : Str) (v : α) :
    lookupM (upsert m k v) k' = if k' = k then some v else lookupM m k' := by
  by_cases hs : (m.find? (fun e => e.1 = k)).isSome
  · unfold upsert
    rw [if_pos hs, lookupM, List.find?_map]
    have hcomp :
        ((fun e : Str × α => decide (e.1 = k')) ∘
          fun e : Str × α => if e.1 = k then (e.1, v) else e) =
        fun e : Str × α => decide (e.1 = k') := by
      funext e
      by_cases h : e.1 = k <;> simp [h]
    rw [hcomp]
    by_cases hk : k' = k
    · subst hk
      obtain ⟨e, he⟩ := Option.isSome_iff_exists.mp hs
      have hek : e.1 = k' := by simpa using List.find?_some he
      rw [if_pos rfl, he]
      simp [hek]
    · rw [if_neg hk, lookupM]
      cases hfind : m.find? (fun e => e.1 = k') with
      | none => simp
      | some e =>
        have hek : e.1 = k' := by simpa using List.find?_some hfind
        have : ¬ e.1 = k := by rw [hek]; exact hk
        simp [this]
  · unfold upsert
    rw [if_neg hs, lookupM, List.find?_append]
    by_cases hk : k' = k
    · subst hk
      have : m.find? (fun e => e.1 = k') = none :=
        Option.not_isSome_iff_eq_none.mp hs
      rw [if_pos rfl, this]
      simp
    · rw [if_neg hk]
      have h1 : List.find? (fun e : Str × α => e.1 = k') [(k, v)] = none := by
        rw [List.find?_eq_none]
        intro x hx
        simp only [List.mem_singleton] at hx
        subst hx
        simpa using fun h => hk h.symm
      rw [h1, Option.or_none]
      rfl

theorem keys_upsert (m : List (Str × α)) (k : Str) (v : α) :
    (upsert m k v).map (·.1) =
      if (m.find? (fun e => e.1 = k)).isSome then m.map (·.1)
      else m.map (·.1) ++ [k] := by
  unfold upsert
  by_cases hs : (m.find? (fun e => e.1 = k)).isSome
  · rw [if_pos hs, if_pos hs, List.map_map]
    have hcomp :
        ((fun e : Str × α => e.1) ∘ fun e : Str × α => if e.1 = k then (e.1, v) else e) =
        fun e : Str × α => e.1 := by
      funext e
      by_cases h : e.1 = k <;> simp [h]
    rw [hcomp]
  · rw [if_neg hs, if_neg hs]
    simp

theorem find?_key_isSome_iff (m : List (Str × α)) (k : Str) :
    (m.find? (fun e => e.1 = k)).isSome ↔ k ∈ m.map (·.1) := by
  rw [List.find?_isSome, List.mem_map]
  constructor
  · rintro ⟨e, he, hk⟩
    exact ⟨e, he, by simpa using hk⟩
  · rintro ⟨e, he, hk⟩
    exact ⟨e, he, by simpa using hk⟩

theorem lookupM_foldl_upsert_fn (f : Str → α) (l : List Str)
    (acc : List (Str × α)) (k : Str) :
    lookupM (l.foldl (fun r i => upsert r i (f i)) acc) k =
      if k ∈ l then some (f k) else lookupM acc k := by
  induction l generalizing acc with
  | nil => simp
  | cons i l ih =>
    simp only [List.foldl_cons]
    rw [ih]
    by_cases hk : k ∈ l
    · simp [hk]
    · rw [if_neg hk, lookupM_upsert]
      by_cases hki : k = i
      · subst hki; simp [hk]
      · simp [hk, hki]

theorem keys_foldl_upsert (f : Str → α) (l : List Str)
    (acc : List (Str × α)) (hn : l.Nodup) (hd : ∀ i ∈ l, i ∉ acc.map (·.1)) :
    (l.foldl (fun r i => upsert r i (f i)) acc).map (·.1) = acc.map (·.1) ++ l := by
  induction l generalizing acc with
  | nil => simp
  | cons i l ih =>
    simp only [List.foldl_cons]
    have hnotin : i ∉ acc.map (·.1) := hd i (by simp)
    have hfind : ¬ (acc.find? (fun e => e.1 = i)).isSome = true := by
      rw [find?_key_isSome_iff]; exact hnotin
    have hkeys : (upsert acc i (f i)).map (·.1) = acc.map (·.1) ++ [i] := by
      rw [keys_upsert, if_neg hfind]
    have hd2 : ∀ j ∈ l, j ∉ (upsert acc i (f i)).map (·.1) := by
      intro j hj
      rw [hkeys]
      simp only [List.mem_append, List.mem_singleton]
      rintro (h | h)
      · exact hd j (List.mem_cons_of_mem i hj) h
      · exact (List.nodup_cons.mp hn).1 (h ▸ hj)
    rw [ih (upsert acc i (f i)) (List.Nodup.of_cons hn) hd2, hkeys, List.append_assoc]
    rfl

/-- The output of buildInterfaceInfo, looked up by name: the classification
of that interface when the name is in the snapshot, nothing otherwise. -/
theorem lookup_buildInterfaceInfo (env : ResolveEnv) (ifaces : List Str) (i : Str) :
    lookupM (buildInterfaceInfo env ifaces) i =
      if i ∈ ifaces then some (classifyInterface env (buildBridgeVLAN env) i)
      else none := by
  unfold buildInterfaceInfo
  rw [lookupM_foldl_upsert_fn]
  rfl

/-- The key list of buildInterfaceInfo's output is the snapshot's key list. -/
theorem buildInterfaceInfo_keys (env : ResolveEnv) (ifaces : List Str)
    (hn : ifaces.Nodup) :
    (buildInterfaceInfo env ifaces).map (·.1) = ifaces := by
  unfold buildInterfaceInfo
  rw [keys_foldl_upsert _ _ _ hn (by simp)]
  rfl

/-! ### Prefix lemmas -/

theorem goHasPrefix_iff_take (s p : Str) :
    goHasPrefix s p = true ↔ s.take p.length = p := by
  induction p generalizing s with
  | nil => simp [goHasPrefix]
  | cons q ps ih =>
    cases s with
    | nil => simp [goHasPrefix]
    | cons c s' =>
      simp only [goHasPrefix, List.length_cons, List.take_succ_cons,
        Bool.and_eq_true, beq_iff_eq, List.cons.injEq]
      rw [ih]

theorem goHasPrefix_take_general {s p : Str} (hp : goHasPrefix s p = true)
    (n : Nat) (hn : n ≤ p.length) : s.take n = p.take n := by
  rw [goHasPrefix_iff_take] at hp
  calc s.take n = (s.take p.length).take n := by
        rw [List.take_take, Nat.min_eq_left hn]
    _ = p.take n := by rw [hp]

theorem goHasPrefix_false_of_take {s : Str} (q : Str) (n : Nat)
    (hn : n ≤ q.length) (h : s.take n ≠ q.take n) : goHasPrefix s q = false := by
  cases hq : goHasPrefix s q with
  | false => rfl
  | true => exact absurd (goHasPrefix_take_general hq n hn) h

theorem ne_of_goHasPrefix {s p : Str} (hp : goHasPrefix s p = true)
    (t : Str) (ht : goHasPrefix t p = false) : ¬ s = t := by
  intro h
  rw [h, ht] at hp
  cases hp

/-! ### Branch evaluation lemmas for classifyInterface -/

theorem bool_ne_true {b : Bool} (h : b = false) : ¬ b = true := by
  rw [h]
  exact Bool.false_ne_true

theorem classify_veth_docker (env : ResolveEnv) (bv : List (Str × Str))
    (iface : Str) (ci : ContainerInfo)
    (hpre : goHasPrefix iface "veth".toList = true)
    (hdock : lookupM env.vethToContainer iface = some ci) :
    classifyInterface env bv iface =
      ⟨iface, ci.Name, "docker".toList, AppName ci, lookupD env.bridgeMap iface,
        if lookupD env.bridgeMap iface ≠ [] then
          lookupD bv (lookupD env.bridgeMap iface) else [],
        normalizeState (env.operstate iface)⟩ := by
  have hlo : ¬ iface = "lo".toList := ne_of_goHasPrefix hpre _ (by decide)
  unfold classifyInterface
  rw [if_neg hlo, if_pos hpre, hdock]
  dsimp only
  split <;> rfl

theorem classify_veth_incus (env : ResolveEnv) (bv : List (Str × Str))
    (iface : Str) (nm : Str)
    (hpre : goHasPrefix iface "veth".toList = true)
    (hdock : lookupM env.vethToContainer iface = none)
    (hincus : lookupM env.vethToIncus iface = some nm) :
    classifyInterface env bv iface =
      ⟨iface, nm, "incus".toList, nm, lookupD env.bridgeMap iface,
        if lookupD env.bridgeMap iface ≠ [] then
          lookupD bv (lookupD env.bridgeMap iface) else [],
        normalizeState (env.operstate iface)⟩ := by
  have hlo : ¬ iface = "lo".toList := ne_of_goHasPrefix hpre _ (by decide)
  unfold classifyInterface
  rw [if_neg hlo, if_pos hpre, hdock, hincus]
  dsimp only
  split <;> rfl

theorem classify_veth_orphan (env : ResolveEnv) (bv : List (Str × Str))
    (iface : Str)
    (hpre : goHasPrefix iface "veth".toList = true)
    (hdock : lookupM env.vethToContainer iface = none)
    (hincus : lookupM env.vethToIncus iface = none) :
    classifyInterface env bv iface =
      ⟨iface, iface, "docker".toList,
        (match lookupM env.bridgeMap iface with
         | some br =>
           match lookupM env.bridgeToNetwork br with
           | some netInfo => appNameFromDockerNetwork netInfo.Name
           | none => []
         | none => []),
        lookupD env.bridgeMap iface,
        if lookupD env.bridgeMap iface ≠ [] then
          lookupD bv (lookupD env.bridgeMap iface) else [],
        normalizeState (env.operstate iface)⟩ := by
  have hlo : ¬ iface = "lo".toList := ne_of_goHasPrefix hpre _ (by decide)
  unfold classifyInterface
  rw [if_neg hlo, if_pos hpre, hdock, hincus]
  dsimp only
  split <;> rfl

theorem classify_vnet (env : ResolveEnv) (bv : List (Str × Str)) (iface : Str)
    (hpre : goHasPrefix iface "vnet".toList = true) :
    classifyInterface env bv iface =
      ⟨iface, (lookupM env.vnetToVM iface).elim iface id, "vm".toList,
        (lookupM env.vnetToVM iface).elim [] id,
        lookupD env.bridgeMap iface,
        if lookupD env.bridgeMap iface ≠ [] then
          lookupD bv (lookupD env.bridgeMap iface) else [],
        normalizeState (env.operstate iface)⟩ := by
  have hlo : ¬ iface = "lo".toList := ne_of_goHasPrefix hpre _ (by decide)
  have hveth : goHasPrefix iface "veth".toList = false := by
    apply goHasPrefix_false_of_take _ 2 (by decide)
    rw [goHasPrefix_take_general hpre 2 (by decide)]
    decide
  unfold classifyInterface
  rw [if_neg hlo, if_neg (bool_ne_true hveth), if_pos hpre]
  cases h : lookupM env.vnetToVM iface <;>
    · dsimp only
      split <;> rfl

theorem classify_macv (env : ResolveEnv) (bv : List (Str × Str)) (iface : Str)
    (hpre : (goHasPrefix iface "macvtap".toList ||
             goHasPrefix iface "macvlan".toList) = true) :
    classifyInterface env bv iface =
      ⟨iface, (lookupM env.vnetToVM iface).elim iface id, "macvtap".toList,
        (lookupM env.vnetToVM iface).elim [] id,
        lookupD env.bridgeMap iface, [],
        normalizeState (env.operstate iface)⟩ := by
  have hm : iface.take 1 = ['m'] := by
    rcases Bool.or_eq_true .. |>.mp hpre with h | h
    · rw [goHasPrefix_take_general h 1 (by decide)]; decide
    · rw [goHasPrefix_take_general h 1 (by decide)]; decide
  have hlo : ¬ iface = "lo".toList := by
    intro h; rw [h] at hm; cases hm
  have hveth : goHasPrefix iface "veth".toList = false :=
    goHasPrefix_false_of_take _ 1 (by decide) (by rw [hm]; decide)
  have hvnet : goHasPrefix iface "vnet".toList = false :=
    goHasPrefix_false_of_take _ 1 (by decide) (by rw [hm]; decide)
  unfold classifyInterface
  rw [if_neg hlo, if_neg (bool_ne_true hveth), if_neg (bool_ne_true hvnet), if_pos hpre]
  cases h : lookupM env.vnetToVM iface <;> rfl

theorem classify_vlanpre (env : ResolveEnv) (bv : List (Str × Str)) (iface : Str)
    (hpre : goHasPrefix iface "vlan".toList = true) :
    classifyInterface env bv iface =
      ⟨iface, iface, "vlan".toList, "system".toList,
        lookupD env.bridgeMap iface,
        (lookupM env.vlanMap iface).elim [] (·.ID),
        normalizeState (env.operstate iface)⟩ := by
  have hlo : ¬ iface = "lo".toList := ne_of_goHasPrefix hpre _ (by decide)
  have hveth : goHasPrefix iface "veth".toList = false := by
    apply goHasPrefix_false_of_take _ 2 (by decide)
    rw [goHasPrefix_take_general hpre 2 (by decide)]
    decide
  have hvnet : goHasPrefix iface "vnet".toList = false := by
    apply goHasPrefix_false_of_take _ 2 (by decide)
    rw [goHasPrefix_take_general hpre 2 (by decide)]
    decide
  have hv : iface.take 1 = ['v'] := by
    rw [goHasPrefix_take_general hpre 1 (by decide)]; decide
  have hmt : goHasPrefix iface "macvtap".toList = false :=
    goHasPrefix_false_of_take _ 1 (by decide) (by rw [hv]; decide)
  have hml : goHasPrefix iface "macvlan".toList = false :=
    goHasPrefix_false_of_take _ 1 (by decide) (by rw [hv]; decide)
  have hmm : (goHasPrefix iface "macvtap".toList ||
      goHasPrefix iface "macvlan".toList) = false := by
    rw [hmt, hml]
    rfl
  unfold classifyInterface
  rw [if_neg hlo, if_neg (bool_ne_true hveth), if_neg (bool_ne_true hvnet),
    if_neg (bool_ne_true hmm), if_pos hpre]
  cases h : lookupM env.vlanMap iface <;> rfl

/-- Conditions excluded before the bridge branch, derived from a first
character that is b, d or i. -/
theorem bridge_branch_exclusions {iface : Str}
    (hfirst : iface.take 1 = ['b'] ∨ iface.take 1 = ['d'] ∨ iface.take 1 = ['i']) :
    ¬ iface = "lo".toList ∧
    goHasPrefix iface "veth".toList = false ∧
    goHasPrefix iface "vnet".toList = false ∧
    goHasPrefix iface "macvtap".toList = false ∧
    goHasPrefix iface "macvlan".toList = false ∧
    goHasPrefix iface "vlan".toList = false := by
  refine ⟨?_, ?_, ?_, ?_, ?_, ?_⟩
  · intro h
    rw [h] at hfirst
    rcases hfirst with h | h | h <;> cases h
  all_goals
    apply goHasPrefix_false_of_take _ 1 (by decide)
    rcases hfirst with h | h | h <;> (rw [h]; decide)

theorem classify_bridge_hash (env : ResolveEnv) (bv : List (Str × Str))
    (iface : Str)
    (hpre : goHasPrefix iface "br-".toList = true) :
    classifyInterface env bv iface =
      ⟨iface,
        (lookupM env.bridgeToNetwork iface).elim iface (·.Name),
        "bridge".toList,
        (lookupM env.bridgeToNetwork iface).elim []
          (fun netInfo => appNameFromDockerNetwork netInfo.Name),
        lookupD env.bridgeMap iface,
        lookupD bv iface,
        normalizeState (env.operstate iface)⟩ := by
  have hb : iface.take 1 = ['b'] := by
    rw [goHasPrefix_take_general hpre 1 (by decide)]; decide
  obtain ⟨hlo, hveth, hvnet, hmt, hml, hvlan⟩ :=
    bridge_branch_exclusions (Or.inl hb)
  have hmm : (goHasPrefix iface "macvtap".toList ||
      goHasPrefix iface "macvlan".toList) = false := by
    rw [hmt, hml]
    rfl
  have hcond : (goHasPrefix iface "br-".toList || goHasPrefix iface "br".toList ||
      goHasPrefix iface "docker".toList || goHasPrefix iface "incus".toList) = true := by
    rw [hpre]
    rfl
  unfold classifyInterface
  rw [if_neg hlo, if_neg (bool_ne_true hveth), if_neg (bool_ne_true hvnet),
    if_neg (bool_ne_true hmm), if_neg (bool_ne_true hvlan),
    if_pos hcond, if_pos hpre]
  cases h : lookupM env.bridgeToNetwork iface <;> rfl

theorem classify_bridge_plain (env : ResolveEnv) (bv : List (Str × Str))
    (iface : Str)
    (hcond : (goHasPrefix iface "br-".toList || goHasPrefix iface "br".toList ||
              goHasPrefix iface "docker".toList ||
              goHasPrefix iface "incus".toList) = true)
    (hnothash : goHasPrefix iface "br-".toList = false) :
    classifyInterface env bv iface =
      ⟨iface, iface, "bridge".toList, "system".toList,
        lookupD env.bridgeMap iface,
        lookupD bv iface,
        normalizeState (env.operstate iface)⟩ := by
  have hfirst : iface.take 1 = ['b'] ∨ iface.take 1 = ['d'] ∨ iface.take 1 = ['i'] := by
    rcases Bool.or_eq_true .. |>.mp hcond with h | h
    · rcases Bool.or_eq_true .. |>.mp h with h | h
      · rcases Bool.or_eq_true .. |>.mp h with h | h
        · exact Or.inl (by rw [goHasPrefix_take_general h 1 (by decide)]; decide)
        · exact Or.inl (by rw [goHasPrefix_take_general h 1 (by decide)]; decide)
      · exact Or.inr (Or.inl (by rw [goHasPrefix_take_general h 1 (by decide)]; decide))
    · exact Or.inr (Or.inr (by rw [goHasPrefix_take_general h 1 (by decide)]; decide))
  obtain ⟨hlo, hveth, hvnet, hmt, hml, hvlan⟩ := bridge_branch_exclusions hfirst
  have hmm : (goHasPrefix iface "macvtap".toList ||
      goHasPrefix iface "macvlan".toList) = false := by
    rw [hmt, hml]
    rfl
  unfold classifyInterface
  rw [if_neg hlo, if_neg (bool_ne_true hveth), if_neg (bool_ne_true hvnet),
    if_neg (bool_ne_true hmm), if_neg (bool_ne_true hvlan),
    if_pos hcond, if_neg (bool_ne_true hnothash)]

theorem classify_default (env : ResolveEnv) (bv : List (Str × Str))
    (iface : Str)
    (hlo : ¬ iface = "lo".toList)
    (hveth : goHasPrefix iface "veth".toList = false)
    (hvnet : goHasPrefix iface "vnet".toList = false)
    (hmt : goHasPrefix iface "macvtap".toList = false)
    (hml : goHasPrefix iface "macvlan".toList = false)
    (hvlan : goHasPrefix iface "vlan".toList = false)
    (hbrh : goHasPrefix iface "br-".toList = false)
    (hbr : goHasPrefix iface "br".toList = false)
    (hdo : goHasPrefix iface "docker".toList = false)
    (hin : goHasPrefix iface "incus".toList = false) :
    classifyInterface env bv iface =
      ⟨iface, iface,
        (lookupM env.vlanMap iface).elim
          (if env.hasDriver iface then "physical".toList else "unknown".toList)
          (fun _ => "vlan".toList),
        "system".toList,
        lookupD env.bridgeMap iface,
        (lookupM env.vlanMap iface).elim [] (·.ID),
        normalizeState (env.operstate iface)⟩ := by
  have hmm : (goHasPrefix iface "macvtap".toList ||
      goHasPrefix iface "macvlan".toList) = false := by
    rw [hmt, hml]
    rfl
  have hcond : (goHasPrefix iface "br-".toList || goHasPrefix iface "br".toList ||
      goHasPrefix iface "docker".toList || goHasPrefix iface "incus".toList) = false := by
    rw [hbrh, hbr, hdo, hin]
    rfl
  unfold classifyInterface
  rw [if_neg hlo, if_neg (bool_ne_true hveth), if_neg (bool_ne_true hvnet),
    if_neg (bool_ne_true hmm), if_neg (bool_ne_true hvlan),
    if_neg (bool_ne_true hcond)]
  cases h : lookupM env.vlanMap iface <;> rfl

/-! ### Concrete scenario: bridge br0 with a VLAN member, a physical member
and a veth member -/

/-- Scenario: bridge br0 whose members are the VLAN sub-interface vlan7
(VLAN id 7), the physical uplink eth0 and the container veth veth1. -/
def vlanExEnv : ResolveEnv :=
  { operstate := fun _ => "up".toList
    bridgeMap := [("vlan7".toList, "br0".toList), ("eth0".toList, "br0".toList),
                  ("veth1".toList, "br0".toList)]
    hasDriver := fun i => i = "eth0".toList
    vethToContainer := []
    bridgeToNetwork := []
    vethToIncus := []
    vnetToVM := []
    vlanMap := [("vlan7".toList, ⟨"7".toList, "eth0".toList⟩)] }

/-- The snapshot key set of the scenario. -/
def vlanExIfaces : List Str :=
  ["br0".toList, "vlan7".toList, "eth0".toList, "veth1".toList]

/-- C1 counterexample: eth0 is a member of bridge br0, br0 has recorded VLAN
id 7, yet the classification assigns eth0 the empty VLAN id, not 7 — the
default branch does not inherit the bridge's VLAN id. -/
theorem vlan_inheritance_counterexample :
    lookupM vlanExEnv.bridgeMap "eth0".toList = some "br0".toList ∧
    lookupD (buildBridgeVLAN vlanExEnv) "br0".toList = "7".toList ∧
    (lookupM (buildInterfaceInfo vlanExEnv vlanExIfaces) "eth0".toList).map (·.VLAN) =
      some [] ∧
    ([] : Str) ≠ "7".toList := by
  decide

/-- C1 amended: the bridge itself carries its recorded VLAN id, and among
bridge members only veth- and vnet-prefixed interfaces inherit it; macvtap
and macvlan interfaces always get an empty VLAN id, vlan-prefixed
interfaces and all remaining interfaces get exactly their own VLAN-map id
(empty when absent), regardless of bridge membership. -/
theorem vlan_inheritance_amended (env : ResolveEnv) (ifaces : List Str)
    (iface : Str) (hmem : iface ∈ ifaces) :
    ((goHasPrefix iface "veth".toList = true ∨ goHasPrefix iface "vnet".toList = true) →
      lookupD env.bridgeMap iface ≠ [] →
      (lookupM (buildInterfaceInfo env ifaces) iface).map (·.VLAN) =
        some (lookupD (buildBridgeVLAN env) (lookupD env.bridgeMap iface))) ∧
    ((goHasPrefix iface "br-".toList || goHasPrefix iface "br".toList ||
      goHasPrefix iface "docker".toList || goHasPrefix iface "incus".toList) = true →
      (lookupM (buildInterfaceInfo env ifaces) iface).map (·.VLAN) =
        some (lookupD (buildBridgeVLAN env) iface)) ∧
    ((goHasPrefix iface "macvtap".toList || goHasPrefix iface "macvlan".toList) = true →
      (lookupM (buildInterfaceInfo env ifaces) iface).map (·.VLAN) = some []) ∧
    (goHasPrefix iface "vlan".toList = true →
      (lookupM (buildInterfaceInfo env ifaces) iface).map (·.VLAN) =
        some ((lookupM env.vlanMap iface).elim [] (·.ID))) ∧
    (¬ iface = "lo".toList →
      goHasPrefix iface "veth".toList = false →
      goHasPrefix iface "vnet".toList = false →
      goHasPrefix iface "macvtap".toList = false →
      goHasPrefix iface "macvlan".toList = false →
      goHasPrefix iface "vlan".toList = false →
      goHasPrefix iface "br-".toList = false →
      goHasPrefix iface "br".toList = false →
      goHasPrefix iface "docker".toList = false →
      goHasPrefix iface "incus".toList = false →
      (lookupM (buildInterfaceInfo env ifaces) iface).map (·.VLAN) =
        some ((lookupM env.vlanMap iface).elim [] (·.ID))) := by
  rw [lookup_buildInterfaceInfo, if_pos hmem]
  refine ⟨?_, ?_, ?_, ?_, ?_⟩
  · rintro (hpre | hpre) hbr
    · cases hdock : lookupM env.vethToContainer iface with
      | some ci =>
        rw [classify_veth_docker env _ iface ci hpre hdock, if_pos hbr]
        rfl
      | none =>
        cases hincus : lookupM env.vethToIncus iface with
        | some nm =>
          rw [classify_veth_incus env _ iface nm hpre hdock hincus, if_pos hbr]
          rfl
        | none =>
          rw [classify_veth_orphan env _ iface hpre hdock hincus, if_pos hbr]
          rfl
    · rw [classify_vnet env _ iface hpre, if_pos hbr]
      rfl
  · intro hcond
    cases hnothash : goHasPrefix iface "br-".toList with
    | true =>
      rw [classify_bridge_hash env _ iface hnothash]
      rfl
    | false =>
      rw [classify_bridge_plain env _ iface hcond hnothash]
      rfl
  · intro hpre
    rw [classify_macv env _ iface hpre]
    rfl
  · intro hpre
    rw [classify_vlanpre env _ iface hpre]
    rfl
  · intro hlo hveth hvnet hmt hml hvlan hbrh hbr hdo hin
    rw [classify_default env _ iface hlo hveth hvnet hmt hml hvlan hbrh hbr hdo hin]
    rfl

/-- C1 amended, witnessed on the concrete scenario: the bridge br0, its
VLAN member vlan7 and its veth member veth1 all resolve to VLAN id 7. -/
theorem vlan_inheritance_amended_witness :
    (lookupM (buildInterfaceInfo vlanExEnv vlanExIfaces) "veth1".toList).map (·.VLAN) =
      some "7".toList ∧
    (lookupM (buildInterfaceInfo vlanExEnv vlanExIfaces) "br0".toList).map (·.VLAN) =
      some "7".toList ∧
    (lookupM (buildInterfaceInfo vlanExEnv vlanExIfaces) "vlan7".toList).map (·.VLAN) =
      some "7".toList := by
  refine ⟨?_, ?_, ?_⟩
  · have h := (vlan_inheritance_amended vlanExEnv vlanExIfaces "veth1".toList
      (by decide)).1 (Or.inl (by decide)) (by decide)
    rw [h]
    decide
  · have h := (vlan_inheritance_amended vlanExEnv vlanExIfaces "br0".toList
      (by decide)).2.1 (by decide)
    rw [h]
    decide
  · have h := (vlan_inheritance_amended vlanExEnv vlanExIfaces "vlan7".toList
      (by decide)).2.2.2.1 (by decide)
    rw [h]
    decide

theorem filter_eq_singleton_of_nodup {l : List Str} {n : Str}
    (hn : l.Nodup) (hmem : n ∈ l) :
    (l.filter (fun s => decide (s = n))).length = 1 := by
  induction l with
  | nil => cases hmem
  | cons a l ih =>
    rw [List.filter_cons]
    by_cases ha : a = n
    · subst ha
      have hnotin : a ∉ l := (List.nodup_cons.mp hn).1
      have hfilter : l.filter (fun s => decide (s = a)) = [] := by
        rw [List.filter_eq_nil_iff]
        intro b hb
        simp only [decide_eq_true_eq]
        intro hba
        exact hnotin (hba ▸ hb)
      simp [hfilter]
    · have hmem' : n ∈ l := by
        rcases List.mem_cons.mp hmem with h | h
        · exact absurd h.symm ha
        · exact h
      simp only [decide_eq_true_eq, ha, if_false]
      exact ih (List.Nodup.of_cons hn) hmem'

theorem length_filter_key (m : List (Str × α)) (n : Str) :
    (m.filter (fun e => decide (e.1 = n))).length =
      ((m.map (·.1)).filter (fun s => decide (s = n))).length := by
  induction m with
  | nil => rfl
  | cons e m ih =>
    rw [List.map_cons, List.filter_cons, List.filter_cons]
    by_cases he : e.1 = n
    · simp [he, ih]
    · simp [he, ih]

/-- C2: every name of the counter snapshot appears exactly once as a key of
the resolver's output, and no other name appears. -/
theorem coverage_exact (env : ResolveEnv) (ifaces : List Str)
    (hn : ifaces.Nodup) :
    (buildInterfaceInfo env ifaces).map (·.1) = ifaces ∧
    (∀ n ∈ ifaces,
      ((buildInterfaceInfo env ifaces).filter (fun e => decide (e.1 = n))).length = 1) ∧
    (∀ n, n ∉ ifaces → lookupM (buildInterfaceInfo env ifaces) n = none) := by
  have hkeys := buildInterfaceInfo_keys env ifaces hn
  refine ⟨hkeys, ?_, ?_⟩
  · intro n hmem
    rw [length_filter_key, hkeys]
    exact filter_eq_singleton_of_nodup hn hmem
  · intro n hnot
    rw [lookup_buildInterfaceInfo, if_neg hnot]

/-- C2, witnessed on the concrete scenario. -/
theorem coverage_exact_witness :
    (buildInterfaceInfo vlanExEnv vlanExIfaces).map (·.1) = vlanExIfaces ∧
    lookupM (buildInterfaceInfo vlanExEnv vlanExIfaces) "eth9".toList = none := by
  have h := coverage_exact vlanExEnv vlanExIfaces (by decide)
  exact ⟨h.1, h.2.2 _ (by decide)⟩

/-- C3: a veth interface present in both the Docker veth map and the Incus
veth map is classified from the Docker record. -/
theorem veth_precedence (env : ResolveEnv) (ifaces : List Str) (iface : Str)
    (ci : ContainerInfo) (nm : Str)
    (hmem : iface ∈ ifaces)
    (hpre : goHasPrefix iface "veth".toList = true)
    (hdock : lookupM env.vethToContainer iface = some ci)
    (hincus : lookupM env.vethToIncus iface = some nm) :
    ∃ info, lookupM (buildInterfaceInfo env ifaces) iface = some info ∧
      info.InstanceType = "docker".toList ∧ info.Instance = ci.Name ∧
      info.App = AppName ci := by
  rw [lookup_buildInterfaceInfo, if_pos hmem,
    classify_veth_docker env _ iface ci hpre hdock]
  exact ⟨_, rfl, rfl, rfl, rfl⟩

/-- A concrete container record for the precedence scenario. -/
def c3Container : ContainerInfo :=
  ⟨"abc123".toList, "ix-app-app-1".toList, 42, [], []⟩

/-- Environment in which veth0 is claimed by both Docker and Incus. -/
def c3Env : ResolveEnv :=
  { operstate := fun _ => "up".toList
    bridgeMap := []
    hasDriver := fun _ => false
    vethToContainer := [("veth0".toList, c3Container)]
    bridgeToNetwork := []
    vethToIncus := [("veth0".toList, "lxcbox".toList)]
    vnetToVM := []
    vlanMap := [] }

/-- C3, witnessed on a veth claimed by both engines. -/
theorem veth_precedence_witness :
    ∃ info, lookupM (buildInterfaceInfo c3Env ["veth0".toList]) "veth0".toList =
        some info ∧
      info.InstanceType = "docker".toList ∧ info.Instance = c3Container.Name ∧
      info.App = AppName c3Container :=
  veth_precedence c3Env ["veth0".toList] "veth0".toList c3Container
    "lxcbox".toList (by decide) (by decide) (by decide) (by decide)

/-- C4: an orphaned veth whose parent bridge is the Docker network
ix-grafana_default resolves to application grafana and type docker. -/
theorem orphan_veth_fallback (env : ResolveEnv) (ifaces : List Str)
    (iface : Str) (br : Str) (ni : DockerNetworkInfo)
    (hmem : iface ∈ ifaces)
    (hpre : goHasPrefix iface "veth".toList = true)
    (hdock : lookupM env.vethToContainer iface = none)
    (hincus : lookupM env.vethToIncus iface = none)
    (hbr : lookupM env.bridgeMap iface = some br)
    (hnet : lookupM env.bridgeToNetwork br = some ni)
    (hname : ni.Name = "ix-grafana_default".toList) :
    ∃ info, lookupM (buildInterfaceInfo env ifaces) iface = some info ∧
      info.App = "grafana".toList ∧ info.InstanceType = "docker".toList := by
  rw [lookup_buildInterfaceInfo, if_pos hmem,
    classify_veth_orphan env _ iface hpre hdock hincus]
  refine ⟨_, rfl, ?_, rfl⟩
  dsimp only
  rw [hbr]
  simp only [hnet, hname]
  decide

/-- Environment with an orphaned veth under the grafana Docker bridge. -/
def c4Env : ResolveEnv :=
  { operstate := fun _ => "up".toList
    bridgeMap := [("veth9".toList, "br-aaaa".toList)]
    hasDriver := fun _ => false
    vethToContainer := []
    bridgeToNetwork := [("br-aaaa".toList, ⟨"ix-grafana_default".toList, "br-aaaa".toList⟩)]
    vethToIncus := []
    vnetToVM := []
    vlanMap := [] }

/-- C4, witnessed on an orphan veth. -/
theorem orphan_veth_fallback_witness :
    ∃ info, lookupM (buildInterfaceInfo c4Env ["veth9".toList]) "veth9".toList =
        some info ∧
      info.App = "grafana".toList ∧ info.InstanceType = "docker".toList :=
  orphan_veth_fallback c4Env ["veth9".toList] "veth9".toList "br-aaaa".toList
    ⟨"ix-grafana_default".toList, "br-aaaa".toList⟩
    (by decide) (by decide) (by decide) (by decide) (by decide) (by decide) (by decide)

/-- C5: a hash-named bridge with a matching Docker network takes the
network's display name as owner; a well-known bridge name with no such
match keeps its literal name and the system application sentinel. -/
theorem bridge_naming (env : ResolveEnv) (ifaces : List Str) (iface : Str)
    (hmem : iface ∈ ifaces) :
    (∀ ni, goHasPrefix iface "br-".toList = true →
      lookupM env.bridgeToNetwork iface = some ni →
      ∃ info, lookupM (buildInterfaceInfo env ifaces) iface = some info ∧
        info.InstanceType = "bridge".toList ∧ info.Instance = ni.Name) ∧
    (goHasPrefix iface "br".toList = true →
      goHasPrefix iface "br-".toList = false →
      lookupM env.bridgeToNetwork iface = none →
      ∃ info, lookupM (buildInterfaceInfo env ifaces) iface = some info ∧
        info.InstanceType = "bridge".toList ∧ info.Instance = iface ∧
        info.App = "system".toList) := by
  constructor
  · intro ni hpre hnet
    rw [lookup_buildInterfaceInfo, if_pos hmem, classify_bridge_hash env _ iface hpre]
    refine ⟨_, rfl, rfl, ?_⟩
    dsimp only
    rw [hnet]
    rfl
  · intro hbr hnothash hnone
    have hcond : (goHasPrefix iface "br-".toList || goHasPrefix iface "br".toList ||
        goHasPrefix iface "docker".toList || goHasPrefix iface "incus".toList) = true := by
      rw [hnothash, hbr]
      rfl
    rw [lookup_buildInterfaceInfo, if_pos hmem,
      classify_bridge_plain env _ iface hcond hnothash]
    exact ⟨_, rfl, rfl, rfl, rfl⟩

/-- Environment with a hash-named Docker bridge and the plain bridge br0. -/
def c5Env : ResolveEnv :=
  { operstate := fun _ => "up".toList
    bridgeMap := []
    hasDriver := fun _ => false
    vethToContainer := []
    bridgeToNetwork :=
      [("br-2c852816592c".toList, ⟨"ix-immich_default".toList, "br-2c852816592c".toList⟩)]
    vethToIncus := []
    vnetToVM := []
    vlanMap := [] }

/-- C5, witnessed on br-2c852816592c and br0. -/
theorem bridge_naming_witness :
    (∃ info, lookupM (buildInterfaceInfo c5Env ["br-2c852816592c".toList, "br0".toList])
        "br-2c852816592c".toList = some info ∧
      info.InstanceType = "bridge".toList ∧
      info.Instance = "ix-immich_default".toList) ∧
    (∃ info, lookupM (buildInterfaceInfo c5Env ["br-2c852816592c".toList, "br0".toList])
        "br0".toList = some info ∧
      info.InstanceType = "bridge".toList ∧ info.Instance = "br0".toList ∧
      info.App = "system".toList) := by
  constructor
  · exact (bridge_naming c5Env _ "br-2c852816592c".toList (by decide)).1
      ⟨"ix-immich_default".toList, "br-2c852816592c".toList⟩ (by decide) (by decide)
  · exact (bridge_naming c5Env _ "br0".toList (by decide)).2
      (by decide) (by decide) (by decide)

/-- Environment in which every interface reports operstate dormant. -/
def dormantEnv : ResolveEnv :=
  { operstate := fun _ => "dormant".toList
    bridgeMap := []
    hasDriver := fun _ => true
    vethToContainer := []
    bridgeToNetwork := []
    vethToIncus := []
    vnetToVM := []
    vlanMap := [] }

/-- C7: the operstate dormant passes through normalizeState unchanged, so
the emitted link state is dormant, which is outside the documented
three-value enumeration up, down, unknown. -/
theorem state_dormant_escapes_enum :
    (lookupM (buildInterfaceInfo dormantEnv ["eth0".toList]) "eth0".toList).map
        (·.State) = some "dormant".toList ∧
    ¬ "dormant".toList ∈ (["up".toList, "down".toList, "unknown".toList] : List Str) := by
  decide

/-! ### Application-name derivation (C6) -/

theorem lastDashIdx_none_iff (s : Str) : lastDashIdx s = none ↔ '-' ∉ s := by
  induction s with
  | nil => simp [lastDashIdx]
  | cons c rest ih =>
    simp only [lastDashIdx, List.mem_cons]
    cases h : lastDashIdx rest with
    | some i =>
      have hmem : '-' ∈ rest := by
        by_contra hmem
        rw [ih.mpr hmem] at h
        cases h
      simp [hmem]
    | none =>
      have hrest : '-' ∉ rest := ih.mp h
      by_cases hc : c = '-'
      · simp [hc]
      · rw [if_neg hc]
        constructor
        · intro _
          rintro (hh | hh)
          · exact hc hh.symm
          · exact hrest hh
        · intro _
          rfl

theorem noDash_of_isNumeric {d : Str} (h : isNumeric d = true) : '-' ∉ d := by
  intro hmem
  unfold isNumeric at h
  rw [Bool.and_eq_true, List.all_eq_true] at h
  have := h.1 '-' hmem
  simp at this

theorem lastDashIdx_append {d : Str} (hd : lastDashIdx d = none) (xs : Str) :
    lastDashIdx (xs ++ '-' :: d) = some xs.length := by
  induction xs with
  | nil =>
    simp only [List.nil_append, lastDashIdx, hd, List.length_nil]
    rfl
  | cons x xs ih =>
    simp only [List.cons_append, lastDashIdx, List.append_eq, ih, List.length_cons]

theorem lastDashIdx_some_decomp {s : Str} {i : Nat}
    (h : lastDashIdx s = some i) :
    s = s.take i ++ '-' :: s.drop (i + 1) ∧ '-' ∉ s.drop (i + 1) ∧ i < s.length := by
  induction s generalizing i with
  | nil => cases h
  | cons c rest ih =>
    simp only [lastDashIdx] at h
    cases hrest : lastDashIdx rest with
    | some j =>
      rw [hrest] at h
      injection h with h
      subst h
      obtain ⟨hdec, hnot, hlt⟩ := ih hrest
      refine ⟨?_, ?_, ?_⟩
      · simp only [List.take_succ_cons, List.drop_succ_cons, List.cons_append,
          List.cons.injEq, true_and]
        exact hdec
      · simpa using hnot
      · simpa using Nat.succ_lt_succ hlt
    | none =>
      rw [hrest] at h
      by_cases hc : c = '-'
      · rw [if_pos hc] at h
        injection h with h
        subst h
        subst hc
        exact ⟨by simp, by simpa using (lastDashIdx_none_iff rest).mp hrest, by simp⟩
      · rw [if_neg hc] at h
        cases h

/-- C6: the application name prefers the compose project label with the ix-
prefix stripped; otherwise it is the container name with the ix- prefix
stripped and, when a nonempty base is followed by a dash and a purely
numeric suffix, with that trailing instance suffix removed. -/
theorem app_name_derivation (c : ContainerInfo) :
    (∀ v, lookupM c.Labels composeProjectLabel = some v →
      AppName c = goTrimPrefix v ixPrefix) ∧
    (lookupM c.Labels composeProjectLabel = none →
      (∀ base digits, goTrimPrefix c.Name ixPrefix = base ++ '-' :: digits →
        base ≠ [] → isNumeric digits = true → AppName c = base) ∧
      ((¬ ∃ base digits, goTrimPrefix c.Name ixPrefix = base ++ '-' :: digits ∧
          base ≠ [] ∧ isNumeric digits = true) →
        AppName c = goTrimPrefix c.Name ixPrefix)) := by
  refine ⟨?_, ?_⟩
  · intro v hv
    unfold AppName
    rw [hv]
  · intro hnone
    constructor
    · intro base digits hdec hbase hnum
      unfold AppName
      rw [hnone]
      dsimp only
      have hnd : lastDashIdx digits = none :=
        (lastDashIdx_none_iff digits).mpr (noDash_of_isNumeric hnum)
      rw [hdec, lastDashIdx_append hnd base]
      dsimp only
      have hpos : base.length > 0 := List.length_pos.mpr hbase
      rw [if_pos hpos]
      have hdrop : (base ++ '-' :: digits).drop (base.length + 1) = digits := by
        have h2 : (base ++ '-' :: digits).drop (base.length + 1) =
            ((base ++ '-' :: digits).drop base.length).drop 1 := by
          rw [List.drop_drop]
        rw [h2, List.drop_left base ('-' :: digits)]
        rfl
      rw [hdrop, if_pos hnum]
      exact List.take_left base ('-' :: digits)
    · intro hnodec
      unfold AppName
      rw [hnone]
      dsimp only
      cases hld : lastDashIdx (goTrimPrefix c.Name ixPrefix) with
      | none => rfl
      | some idx =>
        dsimp only
        cases hidx : idx with
        | zero =>
          rw [if_neg (by simp)]
        | succ j =>
          rw [if_pos (by simp)]
          cases hnum : isNumeric ((goTrimPrefix c.Name ixPrefix).drop (j + 1 + 1)) with
          | false => simp
          | true =>
            exfalso
            subst hidx
            obtain ⟨hdec, _, hlt⟩ := lastDashIdx_some_decomp hld
            apply hnodec
            refine ⟨(goTrimPrefix c.Name ixPrefix).take (j + 1),
              (goTrimPrefix c.Name ixPrefix).drop (j + 1 + 1), hdec, ?_, hnum⟩
            have hlen : ((goTrimPrefix c.Name ixPrefix).take (j + 1)).length = j + 1 := by
              rw [List.length_take]
              exact Nat.min_eq_left (Nat.le_of_lt hlt)
            intro hempty
            rw [hempty] at hlen
            cases hlen

/-- A container carrying the compose project label ix-grafana. -/
def c6Labeled : ContainerInfo :=
  ⟨"aa".toList, "grafana-grafana-1".toList, 10, [],
    [(composeProjectLabel, "ix-grafana".toList)]⟩

/-- A container with no labels named ix-jellyfin-1. -/
def c6Plain : ContainerInfo :=
  ⟨"bb".toList, "ix-jellyfin-1".toList, 11, [], []⟩

/-- C6, witnessed on a labelled and an unlabelled container. -/
theorem app_name_derivation_witness :
    AppName c6Labeled = "grafana".toList ∧ AppName c6Plain = "jellyfin".toList := by
  constructor
  · rw [(app_name_derivation c6Labeled).1 "ix-grafana".toList (by decide)]
    decide
  · exact ((app_name_derivation c6Plain).2 (by decide)).1
      "jellyfin".toList "1".toList (by decide) (by decide) (by decide)

/-! ### Counter-reader lemmas (C8, C10) -/

theorem parseFields_eq_none_iff (l : List Str) :
    parseFields l = none ↔ ∃ f ∈ l, parseUint64 f = none := by
  induction l with
  | nil => simp [parseFields]
  | cons f fs ih =>
    simp only [parseFields]
    cases hf : parseUint64 f with
    | none => simp [hf]
    | some v =>
      cases hfs : parseFields fs with
      | none =>
        simp only [reduceCtorEq, true_iff]
        obtain ⟨g, hg, hgn⟩ := ih.mp hfs
        exact ⟨g, List.mem_cons_of_mem f hg, hgn⟩
      | some vs =>
        simp only [reduceCtorEq, false_iff, not_exists]
        intro g
        rintro ⟨hg, hgn⟩
        rcases List.mem_cons.mp hg with h | h
        · subst h
          rw [hf] at hgn
          cases hgn
        · exact absurd hfs (by rw [ih.mpr ⟨g, h, hgn⟩]; simp)

theorem parseFields_getD (l : List Str) (vs : List Nat)
    (h : parseFields l = some vs) :
    vs.length = l.length ∧
    ∀ i, i < l.length → parseUint64 (l.getD i []) = some (vs.getD i 0) := by
  induction l generalizing vs with
  | nil =>
    simp only [parseFields, Option.some.injEq] at h
    subst h
    simp
  | cons f fs ih =>
    simp only [parseFields] at h
    cases hf : parseUint64 f with
    | none => rw [hf] at h; cases h
    | some v =>
      rw [hf] at h
      cases hfs : parseFields fs with
      | none => rw [hfs] at h; cases h
      | some ws =>
        rw [hfs] at h
        injection h with h
        subst h
        obtain ⟨hlen, hall⟩ := ih ws hfs
        refine ⟨by simp [hlen], ?_⟩
        intro i hi
        cases i with
        | zero => simpa using hf
        | succ i =>
          rw [List.getD_cons_succ, List.getD_cons_succ]
          exact hall i (by simpa using hi)

theorem getD_take (l : List α) (n i : Nat) (h : i < n) (d : α) :
    (l.take n).getD i d = l.getD i d := by
  rw [List.getD_eq_getElem?_getD, List.getD_eq_getElem?_getD,
    List.getElem?_take_of_lt h]

theorem procNetDevFold_eq_entries (lines : List Str) :
    procNetDevFold lines =
      ((lines.drop 2).filterMap parseProcNetDevLine).foldl
        (fun acc e => upsert acc e.1 e.2) [] := by
  unfold procNetDevFold
  generalize lines.drop 2 = l
  suffices h : ∀ acc : List (Str × interfaceStats),
      l.foldl (fun acc line =>
        match parseProcNetDevLine line with
        | some e => upsert acc e.1 e.2
        | none => acc) acc =
      (l.filterMap parseProcNetDevLine).foldl (fun acc e => upsert acc e.1 e.2) acc by
    exact h []
  induction l with
  | nil => intro acc; rfl
  | cons x l ih =>
    intro acc
    rw [List.foldl_cons, List.filterMap_cons]
    cases hx : parseProcNetDevLine x with
    | none => exact ih acc
    | some e => rw [List.foldl_cons]; exact ih (upsert acc e.1 e.2)

theorem lookupM_foldl_upsert_entries (es : List (Str × α))
    (acc : List (Str × α)) (k : Str) :
    lookupM (es.foldl (fun a e => upsert a e.1 e.2) acc) k =
      (es.filter (fun e => decide (e.1 = k))).foldl
        (fun _ e => some e.2) (lookupM acc k) := by
  induction es generalizing acc with
  | nil => rfl
  | cons e es ih =>
    rw [List.foldl_cons, List.filter_cons]
    by_cases he : e.1 = k
    · rw [if_pos (by simpa using he), List.foldl_cons, ih]
      congr 1
      rw [lookupM_upsert, if_pos he.symm]
    · rw [if_neg (by simpa using he), ih]
      congr 1
      rw [lookupM_upsert, if_neg (fun hh => he hh.symm)]

theorem foldl_keep_last (l : List (Str × α)) (init : Option α) :
    l.foldl (fun _ e => some e.2) init =
      match l.getLast? with
      | some e => some e.2
      | none => init := by
  induction l generalizing init with
  | nil => rfl
  | cons a l ih =>
    rw [List.foldl_cons, ih]
    cases l with
    | nil => rfl
    | cons b l' =>
      rw [List.getLast?_cons_cons]
      cases h : (b :: l').getLast? with
      | some e => rfl
      | none => exact absurd (List.getLast?_eq_none_iff.mp h) (by simp)

/-- The snapshot built by the counter reader, looked up by interface name:
the counters of the last well-formed data line bearing that name. -/
theorem lookupM_procNetDevFold (lines : List Str) (name : Str) :
    lookupM (procNetDevFold lines) name =
      ((((lines.drop 2).filterMap parseProcNetDevLine).filter
        (fun e => decide (e.1 = name))).getLast?).map (·.2) := by
  rw [procNetDevFold_eq_entries, lookupM_foldl_upsert_entries, foldl_keep_last]
  cases h : (((lines.drop 2).filterMap parseProcNetDevLine).filter
      (fun e => decide (e.1 = name))).getLast? with
  | some e => rfl
  | none => rfl

theorem keys_nodup_foldl_upsert (es : List (Str × α)) (acc : List (Str × α))
    (hacc : (acc.map (·.1)).Nodup) :
    ((es.foldl (fun a e => upsert a e.1 e.2) acc).map (·.1)).Nodup := by
  induction es generalizing acc with
  | nil => exact hacc
  | cons e es ih =>
    rw [List.foldl_cons]
    apply ih
    rw [keys_upsert]
    by_cases hs : (acc.find? (fun x => x.1 = e.1)).isSome
    · rw [if_pos hs]
      exact hacc
    · rw [if_neg hs]
      rw [List.nodup_append]
      refine ⟨hacc, List.nodup_singleton _, ?_⟩
      intro a ha hb
      simp only [List.mem_singleton] at hb
      subst hb
      exact hs ((find?_key_isSome_iff acc e.1).mpr ha)

/-- C8: the counter read errors exactly when the source cannot be opened;
a line is skipped exactly when it has no colon, fewer than 16 fields, or a
field among the first 16 that does not parse as an unsigned 64-bit decimal;
a parsed line contributes its trimmed interface name and the counters of
columns 0-3 and 8-11; and the snapshot holds, per name, the counters of the
last well-formed line bearing it. -/
theorem counter_read_error_semantics :
    (∀ file, readProcNetDev file = Except.error () ↔ file = none) ∧
    (∀ lines, readProcNetDev (some lines) = Except.ok (procNetDevFold lines)) ∧
    (∀ line, parseProcNetDevLine line = none ↔
      (splitFirstColon line = none ∨
       ∃ pre post, splitFirstColon line = some (pre, post) ∧
         ((goFields post).length < 16 ∨
          ∃ f ∈ (goFields post).take 16, parseUint64 f = none))) ∧
    (∀ line iface s, parseProcNetDevLine line = some (iface, s) →
      ∃ pre post vals, splitFirstColon line = some (pre, post) ∧
        iface = goTrimSpace pre ∧ 16 ≤ (goFields post).length ∧
        parseFields ((goFields post).take 16) = some vals ∧
        s = ⟨vals.getD 0 0, vals.getD 1 0, vals.getD 2 0, vals.getD 3 0,
             vals.getD 8 0, vals.getD 9 0, vals.getD 10 0, vals.getD 11 0⟩ ∧
        ∀ i, i < 16 →
          parseUint64 ((goFields post).getD i []) = some (vals.getD i 0)) ∧
    (∀ lines name, lookupM (procNetDevFold lines) name =
      ((((lines.drop 2).filterMap parseProcNetDevLine).filter
        (fun e => decide (e.1 = name))).getLast?).map (·.2)) := by
  refine ⟨?_, ?_, ?_, ?_, lookupM_procNetDevFold⟩
  · intro file
    cases file <;> simp [readProcNetDev]
  · intro lines
    rfl
  · intro line
    unfold parseProcNetDevLine
    cases hsp : splitFirstColon line with
    | none => simp
    | some pp =>
      obtain ⟨pre, post⟩ := pp
      dsimp only
      by_cases hlen : (goFields post).length < 16
      · rw [if_pos hlen]
        constructor
        · intro _
          exact Or.inr ⟨pre, post, rfl, Or.inl hlen⟩
        · intro _
          rfl
      · rw [if_neg hlen]
        cases hpf : parseFields ((goFields post).take 16) with
        | none =>
          constructor
          · intro _
            obtain ⟨f, hf, hfn⟩ := (parseFields_eq_none_iff _).mp hpf
            exact Or.inr ⟨pre, post, rfl, Or.inr ⟨f, hf, hfn⟩⟩
          · intro _
            rfl
        | some vals =>
          constructor
          · intro h
            exact Option.noConfusion h
          · rintro (h | ⟨pre', post', hsp', h⟩)
            · exact Option.noConfusion h
            · injection hsp' with h12
              have hpost : post = post' := congrArg Prod.snd h12
              subst hpost
              rcases h with h | ⟨f, hf, hfn⟩
              · exact absurd h hlen
              · have := (parseFields_eq_none_iff _).mpr ⟨f, hf, hfn⟩
                exact Option.noConfusion (this.symm.trans hpf)
  · intro line iface s h
    unfold parseProcNetDevLine at h
    cases hsp : splitFirstColon line with
    | none => rw [hsp] at h; cases h
    | some pp =>
      obtain ⟨pre, post⟩ := pp
      rw [hsp] at h
      dsimp only at h
      by_cases hlen : (goFields post).length < 16
      · rw [if_pos hlen] at h
        cases h
      · rw [if_neg hlen] at h
        cases hpf : parseFields ((goFields post).take 16) with
        | none => rw [hpf] at h; cases h
        | some vals =>
          rw [hpf] at h
          injection h with h
          have hif : goTrimSpace pre = iface := congrArg Prod.fst h
          have hs : s = _ := (congrArg Prod.snd h).symm
          refine ⟨pre, post, vals, rfl, hif.symm, Nat.le_of_not_lt hlen, hpf, hs, ?_⟩
          intro i hi
          obtain ⟨hlenv, hall⟩ := parseFields_getD _ _ hpf
          have hlen16 : ((goFields post).take 16).length = 16 := by
            rw [List.length_take]
            exact Nat.min_eq_left (Nat.le_of_not_lt hlen)
          have := hall i (by rw [hlen16]; exact hi)
          rw [getD_take _ _ _ hi] at this
          exact this

/-- A well-formed counter line for eth0. -/
def c8Line : Str := "  eth0: 10 20 3 4 5 6 7 8 90 100 11 12 13 14 15 16".toList

/-- C8, witnessed: the unopenable file errors, a colon-less line is skipped,
and the concrete line parses to the columns the theorem names. -/
theorem counter_read_error_semantics_witness :
    readProcNetDev none = Except.error () ∧
    parseProcNetDevLine "garbage".toList = none ∧
    ∃ pre post vals, splitFirstColon c8Line = some (pre, post) ∧
      "eth0".toList = goTrimSpace pre ∧ 16 ≤ (goFields post).length ∧
      parseFields ((goFields post).take 16) = some vals ∧
      (⟨10, 20, 3, 4, 90, 100, 11, 12⟩ : interfaceStats) =
        ⟨vals.getD 0 0, vals.getD 1 0, vals.getD 2 0, vals.getD 3 0,
         vals.getD 8 0, vals.getD 9 0, vals.getD 10 0, vals.getD 11 0⟩ ∧
      ∀ i, i < 16 →
        parseUint64 ((goFields post).getD i []) = some (vals.getD i 0) :=
  ⟨(counter_read_error_semantics.1 none).mpr rfl,
   (counter_read_error_semantics.2.2.1 "garbage".toList).mpr (Or.inl (by decide)),
   counter_read_error_semantics.2.2.2.1 c8Line "eth0".toList
     ⟨10, 20, 3, 4, 90, 100, 11, 12⟩ (by decide)⟩

/-- C10: when two or more well-formed data lines bear the same interface
name, the snapshot holds exactly one entry for that name, and its counters
are those of the last such line in file order. -/
theorem duplicate_lines_last_wins (lines : List Str) (name : Str)
    (hdup : 2 ≤ (((lines.drop 2).filterMap parseProcNetDevLine).filter
        (fun e => decide (e.1 = name))).length) :
    ((procNetDevFold lines).filter (fun e => decide (e.1 = name))).length = 1 ∧
    lookupM (procNetDevFold lines) name =
      ((((lines.drop 2).filterMap parseProcNetDevLine).filter
        (fun e => decide (e.1 = name))).getLast?).map (·.2) := by
  have h2 := lookupM_procNetDevFold lines name
  refine ⟨?_, h2⟩
  have hne : ((lines.drop 2).filterMap parseProcNetDevLine).filter
      (fun e => decide (e.1 = name)) ≠ [] := by
    intro h
    rw [h] at hdup
    simp at hdup
  obtain ⟨e, he⟩ : ∃ e, (((lines.drop 2).filterMap parseProcNetDevLine).filter
      (fun e => decide (e.1 = name))).getLast? = some e := by
    cases h : (((lines.drop 2).filterMap parseProcNetDevLine).filter
        (fun e => decide (e.1 = name))).getLast? with
    | some e => exact ⟨e, rfl⟩
    | none => exact absurd (List.getLast?_eq_none_iff.mp h) hne
  have hsome : lookupM (procNetDevFold lines) name = some e.2 := by
    rw [h2, he]
    rfl
  have hmem : name ∈ (procNetDevFold lines).map (·.1) := by
    rw [← find?_key_isSome_iff]
    unfold lookupM at hsome
    cases hf : (procNetDevFold lines).find? (fun x => x.1 = name) with
    | none => rw [hf] at hsome; cases hsome
    | some x => simp
  have hnd : ((procNetDevFold lines).map (·.1)).Nodup := by
    rw [procNetDevFold_eq_entries]
    exact keys_nodup_foldl_upsert _ _ (by simp)
  rw [length_filter_key]
  exact filter_eq_singleton_of_nodup hnd hmem

/-- A counter file whose two data lines both describe eth0. -/
def c10Lines : List Str :=
  ["h1".toList, "h2".toList,
   "eth0: 1 1 1 1 0 0 0 0 1 1 1 1 0 0 0 0".toList,
   "eth0: 2 2 2 2 0 0 0 0 2 2 2 2 0 0 0 0".toList]

/-- C10, witnessed: the duplicated eth0 keeps one entry with the counters of
the second line. -/
theorem duplicate_lines_last_wins_witness :
    ((procNetDevFold c10Lines).filter
      (fun e => decide (e.1 = "eth0".toList))).length = 1 ∧
    lookupM (procNetDevFold c10Lines) "eth0".toList =
      some ⟨2, 2, 2, 2, 2, 2, 2, 2⟩ := by
  have h := duplicate_lines_last_wins c10Lines "eth0".toList (by decide)
  refine ⟨h.1, ?_⟩
  rw [h.2]
  decide

/-! ### LXC cgroup matching lemmas (C9) -/

theorem goIndexChar_append_not_mem (c : Char) (b : Str) :
    ∀ a : Str, c ∉ a → goIndexChar (a ++ c :: b) c = some a.length := by
  intro a
  induction a with
  | nil =>
    intro _
    simp [goIndexChar]
  | cons x a ih =>
    intro h
    have hx : ¬ x = c := by
      intro hh
      exact h (List.mem_cons.mpr (Or.inl hh.symm))
    have ha : c ∉ a := fun hm => h (List.mem_cons_of_mem x hm)
    simp only [List.cons_append, goIndexChar, List.append_eq, if_neg hx, ih ha,
      Option.map_some', List.length_cons]

theorem goIndexChar_some_decomp {c : Char} :
    ∀ {s : Str} {i : Nat}, goIndexChar s c = some i →
      ∃ a b, s = a ++ c :: b ∧ a.length = i ∧ c ∉ a := by
  intro s
  induction s with
  | nil =>
    intro i h
    cases h
  | cons x s ih =>
    intro i h
    simp only [goIndexChar] at h
    by_cases hx : x = c
    · rw [if_pos hx] at h
      injection h with h
      subst h
      subst hx
      exact ⟨[], s, by simp, rfl, by simp⟩
    · rw [if_neg hx] at h
      cases hrec : goIndexChar s c with
      | none => rw [hrec] at h; cases h
      | some j =>
        rw [hrec] at h
        injection h with h
        obtain ⟨a, b, hdec, hlen, hnot⟩ := ih hrec
        refine ⟨x :: a, b, ?_, ?_, ?_⟩
        · rw [List.cons_append, ← hdec]
        · rw [List.length_cons, hlen]
          exact h
        · intro hm
          rcases List.mem_cons.mp hm with hh | hh
          · exact hx hh.symm
          · exact hnot hh

theorem goIndexSub_some_prefix {sub : Str} :
    ∀ {s : Str} {i : Nat}, goIndexSub sub s = some i →
      goHasPrefix (s.drop i) sub = true := by
  intro s
  induction s with
  | nil =>
    intro i h
    simp only [goIndexSub] at h
    by_cases hs : sub.isEmpty = true
    · rw [if_pos hs] at h
      injection h with h
      subst h
      cases sub with
      | nil => rfl
      | cons x t => simp at hs
    · rw [if_neg hs] at h
      cases h
  | cons c rest ih =>
    intro i h
    simp only [goIndexSub] at h
    by_cases hp : goHasPrefix (c :: rest) sub = true
    · rw [if_pos hp] at h
      injection h with h
      subst h
      simpa using hp
    · rw [if_neg hp] at h
      cases hrec : goIndexSub sub rest with
      | none => rw [hrec] at h; cases h
      | some j =>
        rw [hrec] at h
        injection h with h
        subst h
        simpa using ih hrec

theorem goIndexSub_le {sub : Str} :
    ∀ {s : Str} {i : Nat}, goIndexSub sub s = some i → i ≤ s.length := by
  intro s
  induction s with
  | nil =>
    intro i h
    simp only [goIndexSub] at h
    by_cases hs : sub.isEmpty = true
    · rw [if_pos hs] at h
      injection h with h
      subst h
      exact Nat.le_refl 0
    · rw [if_neg hs] at h
      cases h
  | cons c rest ih =>
    intro i h
    simp only [goIndexSub] at h
    by_cases hp : goHasPrefix (c :: rest) sub = true
    · rw [if_pos hp] at h
      injection h with h
      subst h
      exact Nat.zero_le _
    · rw [if_neg hp] at h
      cases hrec : goIndexSub sub rest with
      | none => rw [hrec] at h; cases h
      | some j =>
        rw [hrec] at h
        injection h with h
        subst h
        simpa using Nat.succ_le_succ (ih hrec)

theorem goHasPrefix_decomp {s p : Str} (h : goHasPrefix s p = true) :
    s = p ++ s.drop p.length := by
  conv_lhs => rw [← List.take_append_drop p.length s]
  rw [goHasPrefix_iff_take] at h
  rw [h]

/-- parseLXCLine succeeds with nm exactly when the text after the FIRST
occurrence of the lxc.payload. token is a nonempty slash-free name followed
by exactly /init.scope to the end of the line. -/
theorem parseLXCLine_iff (line nm : Str) :
    parseLXCLine line = some nm ↔
      ∃ a, line = a ++ lxcToken ++ nm ++ initScope ∧ nm ≠ [] ∧ '/' ∉ nm ∧
        goIndexSub lxcToken line = some a.length := by
  constructor
  · intro h
    unfold parseLXCLine at h
    cases hidx : goIndexSub lxcToken line with
    | none => rw [hidx] at h; cases h
    | some idx =>
      rw [hidx] at h
      dsimp only at h
      cases hslash : goIndexChar (line.drop (idx + lxcToken.length)) '/' with
      | none => rw [hslash] at h; cases h
      | some slashIdx =>
        rw [hslash] at h
        dsimp only at h
        by_cases hz : slashIdx = 0
        · rw [if_pos hz] at h
          cases h
        · rw [if_neg hz] at h
          by_cases hsc : (line.drop (idx + lxcToken.length)).drop slashIdx = initScope
          · rw [if_pos hsc] at h
            injection h with h
            obtain ⟨a', b', hdec, hlen', hnot⟩ := goIndexChar_some_decomp hslash
            have hnm : nm = a' := by
              rw [← h, hdec, ← hlen', List.take_left]
            refine ⟨line.take idx, ?_, ?_, ?_, ?_⟩
            · have hpre := goIndexSub_some_prefix hidx
              have hdrop : line.drop idx =
                  lxcToken ++ (line.drop idx).drop lxcToken.length :=
                goHasPrefix_decomp hpre
              have hdd : (line.drop idx).drop lxcToken.length =
                  line.drop (idx + lxcToken.length) := by
                rw [List.drop_drop]
              have hrest : line.drop (idx + lxcToken.length) = nm ++ initScope := by
                calc line.drop (idx + lxcToken.length)
                    = (line.drop (idx + lxcToken.length)).take slashIdx ++
                      (line.drop (idx + lxcToken.length)).drop slashIdx :=
                      (List.take_append_drop _ _).symm
                  _ = nm ++ initScope := by rw [h, hsc]
              calc line = line.take idx ++ line.drop idx :=
                    (List.take_append_drop idx line).symm
                _ = line.take idx ++ (lxcToken ++ (line.drop idx).drop lxcToken.length) := by
                    rw [← hdrop]
                _ = line.take idx ++ (lxcToken ++ (nm ++ initScope)) := by
                    rw [hdd, hrest]
                _ = line.take idx ++ lxcToken ++ nm ++ initScope := by
                    simp [List.append_assoc]
            · rw [hnm]
              intro he
              apply hz
              rw [← hlen', he]
              rfl
            · rw [hnm]
              exact hnot
            · congr 1
              rw [List.length_take]
              exact (Nat.min_eq_left (goIndexSub_le hidx)).symm
          · rw [if_neg hsc] at h
            cases h
  · rintro ⟨a, hline, hnm, hnot, hidx⟩
    unfold parseLXCLine
    rw [hidx]
    dsimp only
    have hrest : line.drop (a.length + lxcToken.length) = nm ++ initScope := by
      rw [hline]
      have h1 : a ++ lxcToken ++ nm ++ initScope =
          (a ++ lxcToken) ++ (nm ++ initScope) := by
        simp [List.append_assoc]
      rw [h1, List.drop_left' (by rw [List.length_append])]
    rw [hrest]
    have hscope : initScope = '/' :: "init.scope".toList := by decide
    have hic : goIndexChar (nm ++ initScope) '/' = some nm.length := by
      rw [hscope]
      exact goIndexChar_append_not_mem '/' "init.scope".toList nm hnot
    rw [hic]
    dsimp only
    rw [if_neg (fun hh => hnm (List.length_eq_zero.mp hh)),
      if_pos (List.drop_left nm initScope), List.take_left]

theorem findSome?_isSome_iff (f : α → Option β) (l : List α) :
    (l.findSome? f).isSome = true ↔ ∃ x ∈ l, (f x).isSome = true := by
  induction l with
  | nil => simp [List.findSome?]
  | cons a l ih =>
    rw [List.findSome?_cons]
    cases hfa : f a with
    | some b => simp [hfa]
    | none =>
      rw [ih]
      constructor
      · rintro ⟨x, hx, hfx⟩
        exact ⟨x, List.mem_cons_of_mem a hx, hfx⟩
      · rintro ⟨x, hx, hfx⟩
        rcases List.mem_cons.mp hx with hh | hh
        · subst hh
          rw [hfa] at hfx
          cases hfx
        · exact ⟨x, hh, hfx⟩

/-- parseLXCCgroup extracts a name exactly when some line matches at its
first token occurrence. -/
theorem parseLXCCgroup_ne_empty_iff (data : Str) :
    parseLXCCgroup data ≠ [] ↔
      ∃ line ∈ splitLines '\n' data, ∃ nm a,
        line = a ++ lxcToken ++ nm ++ initScope ∧ nm ≠ [] ∧ '/' ∉ nm ∧
        goIndexSub lxcToken line = some a.length := by
  unfold parseLXCCgroup
  constructor
  · intro h
    cases hf : (splitLines '\n' data).findSome? parseLXCLine with
    | none =>
      rw [hf] at h
      exact absurd rfl h
    | some nm =>
      obtain ⟨line, hmem, hline⟩ := List.exists_of_findSome?_eq_some hf
      obtain ⟨a, h1, h2, h3, h4⟩ := (parseLXCLine_iff line nm).mp hline
      exact ⟨line, hmem, nm, a, h1, h2, h3, h4⟩
  · rintro ⟨line, hmem, nm, a, h1, h2, h3, h4⟩
    have hsome : parseLXCLine line = some nm :=
      (parseLXCLine_iff line nm).mpr ⟨a, h1, h2, h3, h4⟩
    have hisSome : ((splitLines '\n' data).findSome? parseLXCLine).isSome = true :=
      (findSome?_isSome_iff _ _).mpr ⟨line, hmem, by rw [hsome]; rfl⟩
    cases hf : (splitLines '\n' data).findSome? parseLXCLine with
    | none =>
      rw [hf] at hisSome
      cases hisSome
    | some nm' =>
      obtain ⟨line', hmem', hline'⟩ := List.exists_of_findSome?_eq_some hf
      obtain ⟨a', _, hne', _, _⟩ := (parseLXCLine_iff line' nm').mp hline'
      simpa using hne'

/-- buildIncusMapping's loop ignores a process whose extracted container
name is already mapped. -/
theorem incusStep_skips_mapped (im : Int → Option Str)
    (result : List (Str × Str)) (p : ProcEntry)
    (h : ∃ e ∈ result, e.2 = parseLXCCgroup p.cgroup) :
    incusStep im result p = result := by
  unfold incusStep
  by_cases h1 : p.pid ≤ 1
  · rw [if_pos h1]
  · rw [if_neg h1]
    by_cases h2 : p.cgroup.isEmpty = true
    · rw [if_pos h2]
    · rw [if_neg h2]
      dsimp only
      by_cases h3 : (parseLXCCgroup p.cgroup).isEmpty = true
      · rw [if_pos h3]
      · rw [if_neg h3]
        obtain ⟨e, hmem, he⟩ := h
        rw [if_pos (List.any_eq_true.mpr ⟨e, hmem, by simp [he]⟩)]

/-- C9 counterexample: this line contains the token lxc.payload. followed by
the nonempty slash-free name b whose scope suffix is exactly /init.scope,
yet parseLXCCgroup extracts nothing, because only the FIRST occurrence of
the token in the line is examined and its suffix does not match. -/
def c9BadLine : Str := "0::/lxc.payload.a/x/lxc.payload.b/init.scope".toList

theorem lxc_match_counterexample :
    parseLXCCgroup c9BadLine = [] ∧
    c9BadLine = "0::/lxc.payload.a/x/".toList ++ lxcToken ++ "b".toList ++ initScope ∧
    ("b".toList : Str) ≠ [] ∧ '/' ∉ ("b".toList : Str) := by
  decide

/-- C9 amended: a name is extracted iff some line, at the first occurrence
of the lxc.payload. token, continues with a nonempty slash-free name
followed by exactly /init.scope ending the line; and a process whose
extracted name is already mapped is ignored. -/
theorem lxc_match_amended :
    (∀ line nm, parseLXCLine line = some nm ↔
      ∃ a, line = a ++ lxcToken ++ nm ++ initScope ∧ nm ≠ [] ∧ '/' ∉ nm ∧
        goIndexSub lxcToken line = some a.length) ∧
    (∀ data, parseLXCCgroup data ≠ [] ↔
      ∃ line ∈ splitLines '\n' data, ∃ nm a,
        line = a ++ lxcToken ++ nm ++ initScope ∧ nm ≠ [] ∧ '/' ∉ nm ∧
        goIndexSub lxcToken line = some a.length) ∧
    (∀ im result p, (∃ e ∈ result, e.2 = parseLXCCgroup p.cgroup) →
      incusStep im result p = result) :=
  ⟨parseLXCLine_iff, parseLXCCgroup_ne_empty_iff, incusStep_skips_mapped⟩

/-- A genuine single-line init-scope cgroup text. -/
def c9GoodCgroup : Str := "0::/lxc.payload.backupserver/init.scope".toList

/-- C9 amended, witnessed: the genuine init-scope cgroup matches, and a
second process for an already-mapped name leaves the mapping unchanged. -/
theorem lxc_match_amended_witness :
    parseLXCCgroup c9GoodCgroup ≠ [] ∧
    incusStep (fun _ => none) [("veth5".toList, "backupserver".toList)]
        ⟨7, c9GoodCgroup, [3]⟩ =
      [("veth5".toList, "backupserver".toList)] := by
  constructor
  · apply (lxc_match_amended.2.1 c9GoodCgroup).mpr
    exact ⟨c9GoodCgroup, by decide, "backupserver".toList, "0::/".toList,
      by decide, by decide, by decide, by decide⟩
  · apply lxc_match_amended.2.2
    exact ⟨("veth5".toList, "backupserver".toList), by decide, by decide⟩

end NetExporter
